import Mathlib

set_option maxHeartbeats 1000000

/-
Verification development for the robot_manager repository.

The TypeScript source (src/robot_manager.ts) is shallowly embedded below.
Machine time (epoch milliseconds) is modelled as `Int`; the single-threaded
program's wall clock is passed explicitly as a `now : Int` parameter, and
JavaScript `Date` minute arithmetic (`end.setMinutes(now.getMinutes() + d)`)
is modelled as linear millisecond arithmetic `now + d * 60000`.
File-system effects are modelled by a boolean "wrote" flag paired with the
record list that would be serialized, and console output by a list of
output events.  JavaScript truthiness of `used_by` (`!!robot.used_by`,
false for `undefined` and for the empty string) is `RobotData.isUsed`.
-/

/-- One robot record, from the `RobotData` type of robot_manager.ts.
`used_by`, `start_time`, `end_time` are the optional reservation fields. -/
structure RobotData where
  id : String
  alias_ : String
  type : String
  used_by : Option String
  start_time : Option Int
  end_time : Option Int
deriving DecidableEq, Repr

/-- JavaScript truthiness of the `used_by` field: `!!robot.used_by` is
`true` exactly when `used_by` is present and non-empty. -/
def RobotData.isUsed (r : RobotData) : Bool := r.used_by.getD "" != ""

/-- A console output event.  Plain `printMessage` strings are carried
verbatim as `text`; `printRobotUsageMessage` is abstracted as the event
`usage` carrying the printed records (its textual rendering depends on the
process's local time zone, which is outside the model). -/
inductive OutMsg where
  | text (s : String)
  | usage (rs : List RobotData)
deriving DecidableEq, Repr

/-- Result of one manager operation: the in-memory record list afterwards,
whether `updateRobotData` (a full rewrite of storage with that list) ran,
and the console output produced. -/
abbrev OpResult := List RobotData × Bool × List OutMsg

/-- A raw CSV row for the robot schema, as produced by `csv-parse` with
`columns: true, cast: true`: the three required cells are strings, and an
optional time cell is either a number or the empty cell. -/
inductive TimeCell where
  | num (n : Int)
  | empty
deriving DecidableEq, Repr

/-- A raw storage row before `parseRobotData`'s normalization. The
`used_by` cell is the parsed string (empty string for an empty cell). -/
structure RawRobotRow where
  id : String
  alias_ : String
  type : String
  used_by : String
  start_time : TimeCell
  end_time : TimeCell
deriving DecidableEq, Repr

/-- JavaScript truthiness of a time cell: `0` and the empty string are
falsy, every other number is truthy. -/
def TimeCell.truthy : TimeCell → Bool
  | .num n => n != 0
  | .empty => false

/-- `cell || undefined` from `parseRobotData`: a falsy cell becomes the
absent field, a truthy numeric cell is kept. -/
def TimeCell.toOpt : TimeCell → Option Int
  | .num n => if n = 0 then none else some n
  | .empty => none

/-- The per-row normalization inside `parseRobotData`:
`used_by: used_by || undefined`, `start_time: start_time || undefined`,
`end_time: end_time || undefined`. -/
def parseRow (row : RawRobotRow) : RobotData :=
  { id := row.id
    alias_ := row.alias_
    type := row.type
    used_by := if row.used_by = "" then none else some row.used_by
    start_time := row.start_time.toOpt
    end_time := row.end_time.toOpt }

/-- `parseRobotData`: map the normalization over all parsed rows. -/
def parseRobotData (rows : List RawRobotRow) : List RobotData :=
  rows.map parseRow

/-- Whether `checkAndClearExpiredRobots`, run at time `now`, clears record
`r`: the record passes the `!!robot.used_by` filter and `now > end_time`
(a missing `end_time` yields an invalid date, which compares false). -/
def isExpiredAt (now : Int) (r : RobotData) : Bool :=
  r.isUsed && (match r.end_time with
               | some e => decide (e < now)
               | none => false)

/-- Clearing one expired record: `used_by`, `start_time`, `end_time` are
all set to `undefined`. -/
def clearRobot (r : RobotData) : RobotData :=
  { r with used_by := none, start_time := none, end_time := none }

/-- `checkAndClearExpiredRobots`: clear every record with truthy `used_by`
whose `end_time` is strictly before `now`, and report whether any record
was cleared. -/
def checkAndClearExpiredRobots (data : List RobotData) (now : Int) :
    List RobotData × Bool :=
  (data.map (fun r => if isExpiredAt now r then clearRobot r else r),
   data.any (isExpiredAt now))

/-- `loadData`: parse storage rows, run the expiry pass, and persist
(second component `true`) exactly when the pass cleared something. -/
def loadData (rows : List RawRobotRow) (now : Int) : List RobotData × Bool :=
  ((checkAndClearExpiredRobots (parseRobotData rows) now).1,
   (checkAndClearExpiredRobots (parseRobotData rows) now).2)

/-- `pickRobotsByType`: filter by exact type, preserving load order. -/
def pickRobotsByType (data : List RobotData) (t : String) : List RobotData :=
  data.filter (fun r => r.type == t)

/-- `pickFreeRobot`: first robot of the type whose `used_by` is falsy. -/
def pickFreeRobot (data : List RobotData) (t : String) : Option RobotData :=
  (pickRobotsByType data t).find? (fun r => !r.isUsed)

/-- `getAllRobotTypes`: distinct types in first-occurrence order. -/
def getAllRobotTypes (data : List RobotData) : List String :=
  data.foldl (fun acc r => if acc.contains r.type then acc else acc ++ [r.type]) []

/-- `DEFAULT_DURATION_MIN` from robot_manager.ts. -/
def DEFAULT_DURATION_MIN : Int := 60

/-- `makeDurationTime`: start at `now`, end `durationMin` minutes later
(default 60 when the caller passed no duration). -/
def makeDurationTime (now : Int) (durationMin : Option Int) : Int × Int :=
  (now, now + (durationMin.getD DEFAULT_DURATION_MIN) * 60000)

/-- The mutation performed by `useRobot` on the found robot object:
set all three reservation fields from `makeDurationTime`. -/
def reserveRobot (r : RobotData) (user : String) (durationMin : Option Int)
    (now : Int) : RobotData :=
  { r with
    used_by := some user
    start_time := some (makeDurationTime now durationMin).1
    end_time := some (makeDurationTime now durationMin).2 }

/-- Replace the first list element satisfying `p` by its image under `f`
(the in-place mutation of the object that `find` returned). -/
def replaceFirst (p : RobotData → Bool) (f : RobotData → RobotData) :
    List RobotData → List RobotData
  | [] => []
  | x :: xs => if p x then f x :: xs else x :: replaceFirst p f xs

/-- `useRobotByType`: reserve the first free robot of the type; when none
exists, print `availableRobot is not found` and change nothing. -/
def useRobotByType (data : List RobotData) (t user : String)
    (durationMin : Option Int) (now : Int) : OpResult :=
  match pickFreeRobot data t with
  | none => (data, false, [.text "availableRobot is not found"])
  | some r =>
      (replaceFirst (fun x => x.type == t && !x.isUsed)
        (fun x => reserveRobot x user durationMin now) data,
       true, [.usage [reserveRobot r user durationMin now]])

/-- `useRobotById`: find by exact id; report not-found, or the current
usage when `!!used_by`, otherwise reserve. -/
def useRobotById (data : List RobotData) (id user : String)
    (durationMin : Option Int) (now : Int) : OpResult :=
  match data.find? (fun r => r.id == id) with
  | none => (data, false, [.text ("Can not find robot id " ++ id)])
  | some r =>
      if r.isUsed then (data, false, [.usage [r]])
      else
        (replaceFirst (fun x => x.id == id)
          (fun x => reserveRobot x user durationMin now) data,
         true, [.usage [reserveRobot r user durationMin now]])

/-- `useRobotByAlias`: same as `useRobotById` with the alias key. -/
def useRobotByAlias (data : List RobotData) (a user : String)
    (durationMin : Option Int) (now : Int) : OpResult :=
  match data.find? (fun r => r.alias_ == a) with
  | none => (data, false, [.text ("Can not find robot alias " ++ a)])
  | some r =>
      if r.isUsed then (data, false, [.usage [r]])
      else
        (replaceFirst (fun x => x.alias_ == a)
          (fun x => reserveRobot x user durationMin now) data,
         true, [.usage [reserveRobot r user durationMin now]])

/-- `printRobotsByType`: usage of the robots of the type, or the
unavailable-type message listing all types. -/
def printRobotsByType (data : List RobotData) (t : String) : List OutMsg :=
  if (pickRobotsByType data t).isEmpty then
    [.text ("unavailable type: (" ++ t ++ ") from [" ++
      String.intercalate "," (getAllRobotTypes data) ++ "]")]
  else [.usage (pickRobotsByType data t)]

/-- `printAllRobots`: one usage block per distinct type. -/
def printAllRobots (data : List RobotData) : List OutMsg :=
  (getAllRobotTypes data).map (fun t => .usage (pickRobotsByType data t))

/-- Outcome of one CLI invocation: normal completion with the final data,
whether storage was rewritten, and the output; or a thrown error. -/
inductive CliResult where
  | ok (data : List RobotData) (wrote : Bool) (out : List OutMsg)
  | threw (msg : String)
deriving DecidableEq, Repr

/-- `main`: load (possibly persisting the expiry pass), then dispatch on
the command name; any other command throws `unavailable function name`.
`dm` is `arg3 ? Number(arg3) : undefined`. -/
def runCli (rows : List RawRobotRow) (cmd a1 a2 : String) (dm : Option Int)
    (now : Int) : CliResult :=
  let data := (loadData rows now).1
  let w0 := (loadData rows now).2
  if cmd = "check_all" then .ok data w0 (printAllRobots data)
  else if cmd = "check_type" then .ok data w0 (printRobotsByType data a1)
  else if cmd = "use_robot_by_type" then
    .ok (useRobotByType data a1 a2 dm now).1
      (w0 || (useRobotByType data a1 a2 dm now).2.1)
      (useRobotByType data a1 a2 dm now).2.2
  else if cmd = "use_robot_by_id" then
    .ok (useRobotById data a1 a2 dm now).1
      (w0 || (useRobotById data a1 a2 dm now).2.1)
      (useRobotById data a1 a2 dm now).2.2
  else if cmd = "use_robot_by_alias" then
    .ok (useRobotByAlias data a1 a2 dm now).1
      (w0 || (useRobotByAlias data a1 a2 dm now).2.1)
      (useRobotByAlias data a1 a2 dm now).2.2
  else .threw "unavailable function name"

/-- The invariant claimed for the state after the expiry pass: no record
has a set `used_by` while its `end_time` is at most `now`. -/
def noStaleAt (data : List RobotData) (now : Int) : Bool :=
  data.all (fun r =>
    !(r.used_by.isSome &&
      (match r.end_time with
       | some e => decide (e ≤ now)
       | none => false)))

/-- A reservation whose `end_time` equals the clock value used by the
expiry pass. -/
def staleBoundaryRobot : RobotData :=
  { id := "R1", alias_ := "a1", type := "arm",
    used_by := some "alice", start_time := some (-60000), end_time := some 0 }

/-- A live reservation: `end_time` strictly in the future. -/
def liveRobotExample : RobotData :=
  { id := "R1", alias_ := "a1", type := "arm",
    used_by := some "bob", start_time := some 0, end_time := some 5 }

/-- A free robot, as produced by loading a row with empty optionals. -/
def freeRobotExample : RobotData :=
  { id := "R1", alias_ := "a1", type := "arm",
    used_by := none, start_time := none, end_time := none }

/-- A reserved robot used to exercise the rejection paths. -/
def reservedRobotExample : RobotData :=
  { id := "R2", alias_ := "b2", type := "arm",
    used_by := some "eve", start_time := some 0, end_time := some 999999 }

theorem mem_checkAndClear {data : List RobotData} {now : Int} {r : RobotData}
    (h : r ∈ (checkAndClearExpiredRobots data now).1) :
    ∃ r0 ∈ data, r = if isExpiredAt now r0 then clearRobot r0 else r0 := by
  simp only [checkAndClearExpiredRobots, List.mem_map] at h
  obtain ⟨r0, hr0, heq⟩ := h
  exact ⟨r0, hr0, heq.symm⟩

/-- C1, as stated, is false at the boundary: a record whose `end_time`
equals the current time is not cleared (the code clears only on a strict
comparison), so after the pass it still has `used_by` set with
`end_time ≤ now`. -/
theorem clearExpired_claimed_invariant_counterexample :
    noStaleAt (checkAndClearExpiredRobots [staleBoundaryRobot] 0).1 0 = false := by
  decide

/-- C1 (amended): after `checkAndClearExpiredRobots` runs at time `now`,
no record with a truthy `used_by` has an `end_time` strictly before `now`;
a record whose `end_time` equals `now` (or is absent) is kept. -/
theorem clearExpired_no_strictly_stale (data : List RobotData) (now : Int) :
    ∀ r ∈ (checkAndClearExpiredRobots data now).1,
      r.isUsed = true → ∀ e, r.end_time = some e → now ≤ e := by
  intro r hr hu e he
  obtain ⟨r0, hr0, heq⟩ := mem_checkAndClear hr
  by_cases hexp : isExpiredAt now r0 = true
  · rw [if_pos hexp] at heq
    subst heq
    simp [clearRobot, RobotData.isUsed] at hu
  · rw [if_neg hexp] at heq
    subst heq
    simp [isExpiredAt, hu, he] at hexp
    omega

theorem clearExpired_no_strictly_stale_witness : (3 : Int) ≤ 5 :=
  clearExpired_no_strictly_stale [liveRobotExample] 3 liveRobotExample
    (by decide) (by decide) 5 (by decide)

/-- C2: reserving a free robot found by id sets `used_by = user`,
`start_time = now`, `end_time = now + durationMin * 60000` (so the window
is exactly `durationMin * 60000` milliseconds), replaces that robot in the
list, persists the full list, and reports the updated record; an
unspecified duration behaves as 60 minutes. -/
theorem useRobotById_reserves_exact_duration (data : List RobotData)
    (id user : String) (dm now : Int) (r : RobotData)
    (hfind : data.find? (fun x => x.id == id) = some r)
    (hfree : r.isUsed = false) :
    useRobotById data id user (some dm) now =
      (replaceFirst (fun x => x.id == id)
         (fun x => reserveRobot x user (some dm) now) data,
       true, [.usage [reserveRobot r user (some dm) now]]) ∧
    (reserveRobot r user (some dm) now).used_by = some user ∧
    (reserveRobot r user (some dm) now).start_time = some now ∧
    (reserveRobot r user (some dm) now).end_time = some (now + dm * 60000) ∧
    (reserveRobot r user (some dm) now).end_time.getD 0 -
      (reserveRobot r user (some dm) now).start_time.getD 0 = dm * 60000 ∧
    reserveRobot r user none now = reserveRobot r user (some 60) now := by
  refine ⟨?_, ?_, ?_, ?_, ?_, ?_⟩ <;>
    simp [useRobotById, hfind, hfree, reserveRobot, makeDurationTime,
      DEFAULT_DURATION_MIN]

theorem useRobotById_reserves_exact_duration_witness :
    useRobotById [freeRobotExample] "R1" "alice" (some 30) 1000 =
      (replaceFirst (fun x => x.id == "R1")
         (fun x => reserveRobot x "alice" (some 30) 1000) [freeRobotExample],
       true, [.usage [reserveRobot freeRobotExample "alice" (some 30) 1000]]) :=
  (useRobotById_reserves_exact_duration [freeRobotExample] "R1" "alice" 30 1000
    freeRobotExample (by decide) (by decide)).1

/-- C3: reserving an already-reserved robot, whether looked up by id or by
alias, leaves the whole record list unchanged, does not write storage, and
prints the existing usage of that robot. -/
theorem reserved_robot_rejected (data : List RobotData) (id a user : String)
    (dm : Option Int) (now : Int) (r r' : RobotData)
    (hid : data.find? (fun x => x.id == id) = some r)
    (hr : r.isUsed = true)
    (ha : data.find? (fun x => x.alias_ == a) = some r')
    (hr' : r'.isUsed = true) :
    useRobotById data id user dm now = (data, false, [.usage [r]]) ∧
    useRobotByAlias data a user dm now = (data, false, [.usage [r']]) := by
  constructor <;> simp [useRobotById, useRobotByAlias, hid, hr, ha, hr']

theorem reserved_robot_rejected_witness :
    useRobotById [reservedRobotExample] "R2" "alice" none 0 =
      ([reservedRobotExample], false, [.usage [reservedRobotExample]]) ∧
    useRobotByAlias [reservedRobotExample] "b2" "alice" none 0 =
      ([reservedRobotExample], false, [.usage [reservedRobotExample]]) :=
  reserved_robot_rejected [reservedRobotExample] "R2" "b2" "alice" none 0
    reservedRobotExample reservedRobotExample
    (by decide) (by decide) (by decide) (by decide)

theorem find?_filter_eq {α : Type} (l : List α) (q p : α → Bool) :
    (l.filter q).find? p = l.find? (fun x => q x && p x) := by
  induction l with
  | nil => rfl
  | cons x xs ih =>
    by_cases hq : q x = true
    · by_cases hp : p x = true
      · simp [List.filter_cons, hq, hp, List.find?_cons_of_pos]
      · simp only [List.filter_cons, if_pos hq]
        rw [List.find?_cons_of_neg _ (by simp [hp]),
          List.find?_cons_of_neg _ (by simp [hp]), ih]
    · simp only [List.filter_cons, if_neg hq]
      rw [List.find?_cons_of_neg _ (by simp [hq]), ih]

theorem find?_congr_on {α : Type} (l : List α) (p q : α → Bool)
    (h : ∀ x ∈ l, p x = q x) : l.find? p = l.find? q := by
  induction l with
  | nil => rfl
  | cons x xs ih =>
    have hx := h x (by simp)
    by_cases hp : p x = true
    · rw [List.find?_cons_of_pos _ hp, List.find?_cons_of_pos _ (hx ▸ hp)]
    · rw [List.find?_cons_of_neg _ hp, List.find?_cons_of_neg _ (hx ▸ hp)]
      exact ih (fun y hy => h y (by simp [hy]))

/-- C5: on a normalized record list (no `used_by` equal to the empty
string, which is how `load` always leaves it), `pickFreeRobot` is the
first record in load order with the requested type and absent `used_by`,
and any record it returns has `used_by` absent. -/
theorem pickFreeRobot_first_free (data : List RobotData) (t : String)
    (hnorm : ∀ r ∈ data, r.used_by ≠ some "") :
    pickFreeRobot data t =
      data.find? (fun r => r.type == t && r.used_by.isNone) ∧
    ∀ r, pickFreeRobot data t = some r → r.used_by = none := by
  have h1 : pickFreeRobot data t =
      data.find? (fun x => (x.type == t) && !x.isUsed) :=
    find?_filter_eq data _ _
  have h2 : data.find? (fun x => (x.type == t) && !x.isUsed) =
      data.find? (fun r => r.type == t && r.used_by.isNone) := by
    apply find?_congr_on
    intro x hx
    cases hu : x.used_by with
    | none => simp [RobotData.isUsed, hu]
    | some s =>
      have hs : s ≠ "" := fun h => hnorm x hx (by rw [hu, h])
      simp [RobotData.isUsed, hu, hs]
  refine ⟨h1.trans h2, ?_⟩
  intro r hr
  rw [h1, h2] at hr
  have := List.find?_some hr
  simp only [Bool.and_eq_true, Option.isNone_iff_eq_none] at this
  exact this.2

theorem pickFreeRobot_first_free_witness : freeRobotExample.used_by = none :=
  (pickFreeRobot_first_free [reservedRobotExample, freeRobotExample] "arm"
    (by decide)).2 freeRobotExample (by decide)

theorem isExpiredAt_eq_true_iff (now : Int) (r : RobotData) :
    isExpiredAt now r = true ↔
      (r.isUsed = true ∧ ∃ e, r.end_time = some e ∧ e < now) := by
  cases he : r.end_time <;> simp [isExpiredAt, he]

/-- C6: `loadData` produces the expiry-cleared parse of storage, and its
persistence flag is `true` exactly when some parsed record had a truthy
`used_by` with `end_time` strictly before `now` (the records the expiry
pass clears); with no expired record, storage is not written. -/
theorem loadData_writes_iff_cleared (rows : List RawRobotRow) (now : Int) :
    (loadData rows now).1 =
      (checkAndClearExpiredRobots (parseRobotData rows) now).1 ∧
    ((loadData rows now).2 = true ↔
      ∃ r ∈ parseRobotData rows,
        r.isUsed = true ∧ ∃ e, r.end_time = some e ∧ e < now) := by
  refine ⟨rfl, ?_⟩
  simp only [loadData, checkAndClearExpiredRobots, List.any_eq_true,
    isExpiredAt_eq_true_iff]

/-- C7: when every robot of the requested type is in use, `useRobotByType`
prints `availableRobot is not found`, leaves the record list unchanged,
and does not write storage. -/
theorem useRobotByType_all_busy (data : List RobotData) (t user : String)
    (dm : Option Int) (now : Int)
    (h : ∀ r ∈ data, r.type = t → r.isUsed = true) :
    useRobotByType data t user dm now =
      (data, false, [.text "availableRobot is not found"]) := by
  have hpick : pickFreeRobot data t = none := by
    rw [pickFreeRobot, pickRobotsByType]
    apply List.find?_eq_none.mpr
    intro x hx
    have hx' := List.mem_filter.mp hx
    have hxt : x.type = t := by simpa using hx'.2
    simp [h x hx'.1 hxt]
  simp [useRobotByType, hpick]

theorem useRobotByType_all_busy_witness :
    useRobotByType [reservedRobotExample] "arm" "bob" none 0 =
      ([reservedRobotExample], false, [.text "availableRobot is not found"]) :=
  useRobotByType_all_busy [reservedRobotExample] "arm" "bob" none 0 (by decide)

/-- The record invariant of the data model: `used_by` is present exactly
when `start_time` and `end_time` are both present. -/
def recInv (r : RobotData) : Bool :=
  r.used_by.isSome == (r.start_time.isSome && r.end_time.isSome)

/-- The same invariant on a raw storage row: the `used_by` cell is
non-empty exactly when both time cells are truthy. -/
def rowInv (row : RawRobotRow) : Bool :=
  (row.used_by != "") == (row.start_time.truthy && row.end_time.truthy)

theorem toOpt_isSome (c : TimeCell) : c.toOpt.isSome = c.truthy := by
  cases c with
  | num n => by_cases h : n = 0 <;> simp [TimeCell.toOpt, TimeCell.truthy, h]
  | empty => rfl

/-- A storage row encoding a fully reserved robot. -/
def consistentRowExample : RawRobotRow :=
  { id := "R1", alias_ := "a1", type := "arm",
    used_by := "zed", start_time := .num 1, end_time := .num 2 }

/-- C8: the parse step maps a row satisfying the storage-level invariant
to a record satisfying the record invariant, a reservation sets all three
optional fields together, and the expiry pass clears all three together,
so each operation preserves "fully free or fully reserved". -/
theorem operations_preserve_reservation_invariant
    (row : RawRobotRow) (r : RobotData) (user : String) (dm : Option Int)
    (now : Int) (data : List RobotData)
    (hrow : rowInv row = true)
    (hdata : ∀ x ∈ data, recInv x = true) :
    recInv (parseRow row) = true ∧
    recInv (reserveRobot r user dm now) = true ∧
    ∀ x ∈ (checkAndClearExpiredRobots data now).1, recInv x = true := by
  refine ⟨?_, ?_, ?_⟩
  · have heq : recInv (parseRow row) = rowInv row := by
      simp only [recInv, rowInv, parseRow, toOpt_isSome]
      by_cases h : row.used_by = ""
      · simp [h]
      · have hb : (row.used_by != "") = true := by simp [h]
        simp [h, hb]
    rw [heq]
    exact hrow
  · simp [recInv, reserveRobot]
  · intro x hx
    obtain ⟨r0, hr0, heq⟩ := mem_checkAndClear hx
    by_cases hexp : isExpiredAt now r0 = true
    · rw [if_pos hexp] at heq
      subst heq
      simp [recInv, clearRobot]
    · rw [if_neg hexp] at heq
      rw [heq]
      exact hdata r0 hr0

theorem operations_preserve_reservation_invariant_witness :
    recInv (parseRow consistentRowExample) = true :=
  (operations_preserve_reservation_invariant consistentRowExample
    freeRobotExample "alice" none 0 [liveRobotExample]
    (by decide) (by decide)).1

/-- C9: the CLI throws `unavailable function name` exactly for a command
outside the five dispatched names, while a dispatched command completes
normally; in particular an unknown robot id is reported as a printed
message with no storage write from the operation. -/
theorem cli_unknown_command_throws (rows : List RawRobotRow)
    (cmd a1 a2 : String) (dm : Option Int) (now : Int) :
    (runCli rows cmd a1 a2 dm now = CliResult.threw "unavailable function name" ↔
      cmd ∉ ["check_all", "check_type", "use_robot_by_type",
             "use_robot_by_id", "use_robot_by_alias"]) ∧
    ((∀ r ∈ (loadData rows now).1, r.id ≠ a1) →
      runCli rows "use_robot_by_id" a1 a2 dm now =
        CliResult.ok (loadData rows now).1 (loadData rows now).2
          [.text ("Can not find robot id " ++ a1)]) := by
  constructor
  · by_cases h1 : cmd = "check_all"
    · subst h1; simp [runCli]
    · by_cases h2 : cmd = "check_type"
      · subst h2; simp [runCli]
      · by_cases h3 : cmd = "use_robot_by_type"
        · subst h3; simp [runCli]
        · by_cases h4 : cmd = "use_robot_by_id"
          · subst h4; simp [runCli]
          · by_cases h5 : cmd = "use_robot_by_alias"
            · subst h5; simp [runCli]
            · simp [runCli, h1, h2, h3, h4, h5]
  · intro h
    have hfind : (loadData rows now).1.find? (fun r => r.id == a1) = none :=
      List.find?_eq_none.mpr (fun x hx => by simp [h x hx])
    simp [runCli, useRobotById, hfind]

theorem cli_unknown_command_throws_witness :
    runCli [] "frobnicate" "x" "y" none 0 =
      CliResult.threw "unavailable function name" ∧
    runCli [] "use_robot_by_id" "x" "y" none 0 =
      CliResult.ok [] false [.text ("Can not find robot id " ++ "x")] :=
  ⟨(cli_unknown_command_throws [] "frobnicate" "x" "y" none 0).1.mpr
      (by decide),
   (cli_unknown_command_throws [] "frobnicate" "x" "y" none 0).2 (by decide)⟩

/-- A storage row whose optional cells are all falsy. -/
def falsyRowExample : RawRobotRow :=
  { id := "R1", alias_ := "a1", type := "arm",
    used_by := "", start_time := .num 0, end_time := .empty }

/-- C10: the load normalization turns falsy optional cells into absent
fields: an empty `used_by` cell becomes absent (and the robot is then free
for the queries, e.g. `pickFreeRobot` picks it), and a `start_time` or
`end_time` cell equal to `0` or empty becomes absent, making a stored time
of `0` indistinguishable from no time. -/
theorem parse_normalizes_falsy_optionals (row : RawRobotRow) :
    (row.used_by = "" →
      (parseRow row).used_by = none ∧ (parseRow row).isUsed = false ∧
      pickFreeRobot [parseRow row] row.type = some (parseRow row)) ∧
    (row.start_time = TimeCell.num 0 ∨ row.start_time = TimeCell.empty →
      (parseRow row).start_time = none) ∧
    (row.end_time = TimeCell.num 0 ∨ row.end_time = TimeCell.empty →
      (parseRow row).end_time = none) ∧
    parseRow { row with start_time := TimeCell.num 0,
                        end_time := TimeCell.num 0 } =
      parseRow { row with start_time := TimeCell.empty,
                          end_time := TimeCell.empty } := by
  refine ⟨?_, ?_, ?_, ?_⟩
  · intro h
    refine ⟨by simp [parseRow, h], by simp [parseRow, RobotData.isUsed, h], ?_⟩
    simp [pickFreeRobot, pickRobotsByType, parseRow, RobotData.isUsed, h,
      List.find?, List.filter]
  · rintro (h | h) <;> simp [parseRow, h, TimeCell.toOpt]
  · rintro (h | h) <;> simp [parseRow, h, TimeCell.toOpt]
  · simp [parseRow, TimeCell.toOpt]

theorem parse_normalizes_falsy_optionals_witness :
    (parseRow falsyRowExample).used_by = none ∧
    (parseRow falsyRowExample).isUsed = false ∧
    pickFreeRobot [parseRow falsyRowExample] falsyRowExample.type =
      some (parseRow falsyRowExample) :=
  (parse_normalizes_falsy_optionals falsyRowExample).1 (by decide)

/-- Modelled from the spec: a CSV cell value after type casting — a
string, a number (integers in this development, matching the stored
epoch-millisecond fields), or an absent optional field.  The `csv-parse`
and `csvjson-json2csv` library internals are not part of this repository's
sources, so the codec below follows spec section 4.1. -/
inductive CsvValue where
  | str (s : String)
  | int (n : Int)
  | absent
deriving DecidableEq, Repr

/-- One record as an ordered mapping from header names to cell values. -/
abbrev CsvRecord := List (String × CsvValue)

/-- The character for a decimal digit `d < 10`. -/
def digitChar (d : Nat) : Char := Char.ofNat (48 + d)

/-- The decimal digit denoted by a digit character. -/
def charDigit (c : Char) : Nat := c.toNat - 48

/-- Little-endian decimal digits of `n`, with `fuel` bounding recursion
depth (`fuel = n` always suffices). -/
def natDigitsAux : Nat → Nat → List Nat
  | 0, _ => []
  | fuel + 1, n => if n = 0 then [] else n % 10 :: natDigitsAux fuel (n / 10)

/-- Value of a little-endian decimal digit list. -/
def digitsVal : List Nat → Nat
  | [] => 0
  | d :: rest => d + 10 * digitsVal rest

/-- Canonical decimal rendering of a natural number. -/
def natRender (n : Nat) : List Char :=
  if n = 0 then ['0'] else ((natDigitsAux n n).map digitChar).reverse

/-- Canonical decimal rendering of an integer. -/
def intRender (i : Int) : List Char :=
  if i < 0 then '-' :: natRender i.natAbs else natRender i.natAbs

/-- Read a digit string (most significant first) as a natural number. -/
def natParse (cs : List Char) : Nat := digitsVal ((cs.map charDigit).reverse)

/-- Read a cell as an integer, a leading `-` meaning negation.  The
result is meaningful only when the cell is numeric-looking. -/
def intParseRaw (cs : List Char) : Int :=
  if cs.head? = some '-' then -(natParse cs.tail : Int) else (natParse cs : Int)

/-- Modelled from the spec: the `cast: true` step — a numeric-looking
cell (one that is exactly the canonical rendering of an integer) becomes
a number, everything else stays a string. -/
def castCell (cs : List Char) : CsvValue :=
  if intRender (intParseRaw cs) = cs then .int (intParseRaw cs)
  else .str (String.mk cs)

/-- Textual form of a cell value: strings verbatim, integers in decimal,
absent optional fields as the empty string. -/
def renderValue : CsvValue → List Char
  | .str s => s.data
  | .int n => intRender n
  | .absent => []

/-- Join pieces with a separator character between consecutive pieces. -/
def joinChar (sep : Char) : List (List Char) → List Char
  | [] => []
  | [x] => x
  | x :: y :: ys => x ++ sep :: joinChar sep (y :: ys)

/-- Split at every occurrence of the separator character. -/
def splitOnChar (sep : Char) : List Char → List (List Char)
  | [] => [[]]
  | c :: cs =>
    if c = sep then [] :: splitOnChar sep cs
    else (c :: (splitOnChar sep cs).headD []) :: (splitOnChar sep cs).tail

/-- The header line: the first record's keys, comma-separated. -/
def headerLine (r : CsvRecord) : List Char :=
  joinChar ',' (r.map (fun kv => kv.1.data))

/-- One data line: the record's cell values, comma-separated. -/
def rowLine (r : CsvRecord) : List Char :=
  joinChar ',' (r.map (fun kv => renderValue kv.2))

/-- Modelled from the spec: `stringify` emits a header line from the
first record's keys followed by one line per record, each value in its
natural textual form, absent optionals as empty strings. -/
def stringifyCsv (rs : List CsvRecord) : String :=
  match rs with
  | [] => String.mk []
  | r :: _ => String.mk (joinChar '\n' (headerLine r :: rs.map rowLine))

/-- Build one mapping per data row; fail on an inconsistent column
count. -/
def parseRows (keys : List String) : List (List Char) → Option (List CsvRecord)
  | [] => some []
  | row :: rest =>
    if (splitOnChar ',' row).length = keys.length then
      match parseRows keys rest with
      | some out => some ((keys.zip ((splitOnChar ',' row).map castCell)) :: out)
      | none => none
    else none

/-- Modelled from the spec: `parse` splits the text into a header row and
data rows, keys each data row by the header names, and casts
numeric-looking cells. -/
def parseCsv (input : String) : Option (List CsvRecord) :=
  match splitOnChar '\n' input.data with
  | [] => none
  | header :: rows =>
      parseRows ((splitOnChar ',' header).map (fun cs => String.mk cs)) rows

/-- What one round trip does to a value: render it, then re-cast it. -/
def normValue (v : CsvValue) : CsvValue := castCell (renderValue v)

/-- What one round trip does to a record. -/
def normRecord (r : CsvRecord) : CsvRecord :=
  r.map (fun kv => (kv.1, normValue kv.2))

/-- Type-fidelity equivalence of cell values: equal textual form. -/
def valueEquiv (a b : CsvValue) : Bool := renderValue a == renderValue b

/-- Records agree up to type fidelity: same keys in the same order, and
pointwise `valueEquiv` values. -/
def recordEquiv (a b : CsvRecord) : Bool :=
  (a.length == b.length) &&
  (a.zip b).all (fun p => (p.1.1 == p.2.1) && valueEquiv p.1.2 p.2.2)

/-- Record lists agree up to type fidelity, pointwise. -/
def recordsEquiv (a b : List CsvRecord) : Bool :=
  (a.length == b.length) && (a.zip b).all (fun p => recordEquiv p.1 p.2)

/-- A cell's text can be embedded in the tabular format: it contains
neither the column nor the row separator. -/
def cellOk (cs : List Char) : Prop := (',' ∉ cs) ∧ ('\n' ∉ cs)

instance (cs : List Char) : Decidable (cellOk cs) := by
  unfold cellOk
  infer_instance

theorem splitOnChar_ne_nil (sep : Char) (l : List Char) :
    splitOnChar sep l ≠ [] := by
  cases l with
  | nil => simp [splitOnChar]
  | cons c cs => by_cases h : c = sep <;> simp [splitOnChar, h]

theorem splitOnChar_of_not_mem (sep : Char) (x : List Char) (h : sep ∉ x) :
    splitOnChar sep x = [x] := by
  induction x with
  | nil => rfl
  | cons c cs ih =>
    have hc : ¬ c = sep := by rintro rfl; exact h (List.mem_cons_self _ _)
    have hcs : sep ∉ cs := fun hm => h (List.mem_cons_of_mem _ hm)
    simp [splitOnChar, hc, ih hcs]

theorem splitOnChar_append (sep : Char) (x rest : List Char) (h : sep ∉ x) :
    splitOnChar sep (x ++ sep :: rest) = x :: splitOnChar sep rest := by
  induction x with
  | nil => simp [splitOnChar]
  | cons c cs ih =>
    have hc : ¬ c = sep := by rintro rfl; exact h (List.mem_cons_self _ _)
    have hcs : sep ∉ cs := fun hm => h (List.mem_cons_of_mem _ hm)
    simp [splitOnChar, hc, ih hcs]

theorem splitOnChar_joinChar (sep : Char) (xs : List (List Char))
    (hne : xs ≠ []) (h : ∀ x ∈ xs, sep ∉ x) :
    splitOnChar sep (joinChar sep xs) = xs := by
  induction xs with
  | nil => exact absurd rfl hne
  | cons x xs ih =>
    cases xs with
    | nil => exact splitOnChar_of_not_mem sep x (h x (by simp))
    | cons y ys =>
      simp only [joinChar]
      rw [splitOnChar_append sep x _ (h x (by simp))]
      rw [ih (by simp) (fun z hz => h z (List.mem_cons_of_mem _ hz))]

theorem mem_joinChar {c sep : Char} {xs : List (List Char)}
    (h : c ∈ joinChar sep xs) : c = sep ∨ ∃ x ∈ xs, c ∈ x := by
  induction xs with
  | nil => simp [joinChar] at h
  | cons x xs ih =>
    cases xs with
    | nil => exact Or.inr ⟨x, by simp, by simpa [joinChar] using h⟩
    | cons y ys =>
      simp only [joinChar] at h
      rcases List.mem_append.mp h with hx | hx
      · exact Or.inr ⟨x, by simp, hx⟩
      · rcases List.mem_cons.mp hx with rfl | hx'
        · exact Or.inl rfl
        · rcases ih hx' with h1 | ⟨z, hz, hcz⟩
          · exact Or.inl h1
          · exact Or.inr ⟨z, List.mem_cons_of_mem _ hz, hcz⟩

theorem charDigit_digitChar : ∀ d < 10, charDigit (digitChar d) = d := by
  decide

theorem digitChar_ne_dash : ∀ d < 10, digitChar d ≠ '-' := by
  decide

theorem natDigitsAux_lt_ten (fuel : Nat) :
    ∀ n, ∀ d ∈ natDigitsAux fuel n, d < 10 := by
  induction fuel with
  | zero => intro n d hd; simp [natDigitsAux] at hd
  | succ fuel ih =>
    intro n d hd
    by_cases h : n = 0
    · simp [natDigitsAux, h] at hd
    · rw [natDigitsAux, if_neg h] at hd
      rcases List.mem_cons.mp hd with rfl | hd'
      · exact Nat.mod_lt _ (by norm_num)
      · exact ih (n / 10) d hd'

theorem digitsVal_natDigitsAux (fuel : Nat) :
    ∀ n, n ≤ fuel → digitsVal (natDigitsAux fuel n) = n := by
  induction fuel with
  | zero => intro n hn; interval_cases n; rfl
  | succ fuel ih =>
    intro n hn
    by_cases h : n = 0
    · simp [natDigitsAux, h, digitsVal]
    · rw [natDigitsAux, if_neg h, digitsVal]
      have hdiv : n / 10 ≤ fuel := by
        have : n / 10 < n := Nat.div_lt_self (Nat.pos_of_ne_zero h) (by norm_num)
        omega
      rw [ih (n / 10) hdiv]
      omega

theorem natParse_natRender (n : Nat) : natParse (natRender n) = n := by
  by_cases h : n = 0
  · subst h; decide
  · rw [natRender, if_neg h, natParse]
    rw [List.map_reverse, List.reverse_reverse, List.map_map]
    have hmap : (natDigitsAux n n).map (charDigit ∘ digitChar) =
        (natDigitsAux n n).map id := by
      apply List.map_congr_left
      intro d hd
      exact charDigit_digitChar d (natDigitsAux_lt_ten n n d hd)
    rw [hmap, List.map_id]
    exact digitsVal_natDigitsAux n n (le_refl n)

theorem mem_natRender_digit (n : Nat) :
    ∀ c ∈ natRender n, ∃ d, d < 10 ∧ c = digitChar d := by
  intro c hc
  by_cases h : n = 0
  · subst h
    have hc' : c = '0' := by simpa [natRender] using hc
    exact ⟨0, by norm_num, by rw [hc']; decide⟩
  · rw [natRender, if_neg h, List.mem_reverse] at hc
    obtain ⟨d, hd, rfl⟩ := List.mem_map.mp hc
    exact ⟨d, natDigitsAux_lt_ten n n d hd, rfl⟩

theorem natRender_head_ne_dash (n : Nat) : ¬ (natRender n).head? = some '-' := by
  intro hh
  have hc : '-' ∈ natRender n := by
    cases hr : natRender n with
    | nil => rw [hr] at hh; simp at hh
    | cons a l =>
      rw [hr] at hh
      simp only [List.head?_cons, Option.some.injEq] at hh
      rw [hh]
      exact List.mem_cons_self _ _
  obtain ⟨d, hd, hcd⟩ := mem_natRender_digit n _ hc
  exact digitChar_ne_dash d hd hcd.symm

theorem intParseRaw_intRender (i : Int) : intParseRaw (intRender i) = i := by
  by_cases h : i < 0
  · rw [intRender, if_pos h]
    have hstep : intParseRaw ('-' :: natRender i.natAbs) =
        -(natParse (natRender i.natAbs) : Int) := by
      simp [intParseRaw]
    rw [hstep, natParse_natRender]
    omega
  · rw [intRender, if_neg h, intParseRaw,
      if_neg (natRender_head_ne_dash i.natAbs), natParse_natRender]
    omega

theorem castCell_intRender (i : Int) : castCell (intRender i) = .int i := by
  rw [castCell, intParseRaw_intRender, if_pos rfl]

theorem valueEquiv_normValue (v : CsvValue) : valueEquiv (normValue v) v = true := by
  cases v with
  | str s =>
    rw [normValue, renderValue, castCell]
    by_cases h : intRender (intParseRaw s.data) = s.data
    · rw [if_pos h]
      simp [valueEquiv, renderValue, h]
    · rw [if_neg h]
      simp [valueEquiv, renderValue]
  | int n =>
    rw [normValue, renderValue, castCell_intRender]
    simp [valueEquiv]
  | absent =>
    show valueEquiv (castCell (renderValue .absent)) .absent = true
    decide

theorem newline_not_mem_rowLine (r : CsvRecord)
    (h : ∀ kv ∈ r, cellOk (renderValue kv.2)) : '\n' ∉ rowLine r := by
  intro hmem
  rcases mem_joinChar hmem with h1 | ⟨x, hx, hcx⟩
  · exact absurd h1 (by decide)
  · obtain ⟨kv, hkv, rfl⟩ := List.mem_map.mp hx
    exact (h kv hkv).2 hcx

theorem newline_not_mem_headerLine (r : CsvRecord)
    (h : ∀ kv ∈ r, cellOk kv.1.data) : '\n' ∉ headerLine r := by
  intro hmem
  rcases mem_joinChar hmem with h1 | ⟨x, hx, hcx⟩
  · exact absurd h1 (by decide)
  · obtain ⟨kv, hkv, rfl⟩ := List.mem_map.mp hx
    exact (h kv hkv).2 hcx

theorem parseCsv_eq (input : String) (header : List Char)
    (rows : List (List Char))
    (h : splitOnChar '\n' input.data = header :: rows) :
    parseCsv input =
      parseRows ((splitOnChar ',' header).map (fun cs => String.mk cs)) rows := by
  unfold parseCsv
  rw [h]

theorem parseRows_map_rowLine (keys : List String) (rs : List CsvRecord)
    (hne : keys ≠ [])
    (huniform : ∀ r ∈ rs, r.map Prod.fst = keys)
    (hvals : ∀ r ∈ rs, ∀ kv ∈ r, cellOk (renderValue kv.2)) :
    parseRows keys (rs.map rowLine) = some (rs.map normRecord) := by
  induction rs with
  | nil => rfl
  | cons r rest ih =>
    have hkeys : r.map Prod.fst = keys := huniform r (by simp)
    have hrne : r ≠ [] := by
      intro h0
      rw [h0] at hkeys
      exact hne hkeys.symm
    have hcells : splitOnChar ',' (rowLine r) =
        r.map (fun kv => renderValue kv.2) := by
      rw [rowLine]
      apply splitOnChar_joinChar
      · simp [hrne]
      · intro x hx
        obtain ⟨kv, hkv, rfl⟩ := List.mem_map.mp hx
        exact (hvals r (by simp) kv hkv).1
    simp only [List.map_cons, parseRows]
    rw [hcells]
    have hlen : (r.map (fun kv => renderValue kv.2)).length = keys.length := by
      rw [List.length_map, ← hkeys, List.length_map]
    rw [if_pos hlen]
    rw [ih (fun x hx => huniform x (List.mem_cons_of_mem _ hx))
        (fun x hx => hvals x (List.mem_cons_of_mem _ hx))]
    have hzip : keys.zip ((r.map (fun kv => renderValue kv.2)).map castCell) =
        normRecord r := by
      rw [List.map_map, ← hkeys, List.zip_map']
      rfl
    rw [hzip]


theorem all_zip_map {α : Type} (l : List α) (f : α → α) (p : α × α → Bool)
    (h : ∀ x ∈ l, p (f x, x) = true) : ((l.map f).zip l).all p = true := by
  induction l with
  | nil => rfl
  | cons x xs ih =>
    simp only [List.map_cons, List.zip_cons_cons, List.all_cons]
    rw [h x (by simp), ih (fun y hy => h y (List.mem_cons_of_mem _ hy))]
    rfl

theorem recordEquiv_normRecord (r : CsvRecord) :
    recordEquiv (normRecord r) r = true := by
  have h1 : ((normRecord r).length == r.length) = true := by simp [normRecord]
  have h2 : ((normRecord r).zip r).all
      (fun p => (p.1.1 == p.2.1) && valueEquiv p.1.2 p.2.2) = true := by
    rw [normRecord]
    apply all_zip_map
    intro kv hkv
    simp [valueEquiv_normValue]
  rw [recordEquiv, h1, h2]
  rfl

theorem recordsEquiv_map_normRecord (l : List CsvRecord) :
    recordsEquiv (l.map normRecord) l = true := by
  have h1 : ((l.map normRecord).length == l.length) = true := by simp
  have h2 : ((l.map normRecord).zip l).all (fun p => recordEquiv p.1 p.2) = true := by
    apply all_zip_map
    intro r hr
    exact recordEquiv_normRecord r
  rw [recordsEquiv, h1, h2]
  rfl

/-- C4: for a non-empty list of uniform-shaped records with non-empty
shape, whose keys and rendered values contain neither separator, parsing
the stringified text succeeds and reproduces the records up to type
fidelity: the result is the pointwise normalization of the input, which
agrees with the input key-for-key with `valueEquiv` values (strings,
integers and empty/absent optionals all render back to the same text). -/
theorem csv_roundtrip (r0 : CsvRecord) (rest : List CsvRecord)
    (hne : r0 ≠ [])
    (huniform : ∀ r ∈ r0 :: rest, r.map Prod.fst = r0.map Prod.fst)
    (hkeys : ∀ kv ∈ r0, cellOk kv.1.data)
    (hvals : ∀ r ∈ r0 :: rest, ∀ kv ∈ r, cellOk (renderValue kv.2)) :
    parseCsv (stringifyCsv (r0 :: rest)) = some ((r0 :: rest).map normRecord) ∧
    recordsEquiv ((r0 :: rest).map normRecord) (r0 :: rest) = true := by
  refine ⟨?_, recordsEquiv_map_normRecord _⟩
  have hlines : splitOnChar '\n'
      (joinChar '\n' (headerLine r0 :: (r0 :: rest).map rowLine)) =
      headerLine r0 :: (r0 :: rest).map rowLine := by
    apply splitOnChar_joinChar
    · simp
    · intro x hx
      rcases List.mem_cons.mp hx with rfl | hx'
      · exact newline_not_mem_headerLine r0 hkeys
      · obtain ⟨r, hr, rfl⟩ := List.mem_map.mp hx'
        exact newline_not_mem_rowLine r (hvals r hr)
  have hstr : stringifyCsv (r0 :: rest) =
      String.mk (joinChar '\n' (headerLine r0 :: (r0 :: rest).map rowLine)) := rfl
  rw [hstr]
  have happ := parseCsv_eq
    (String.mk (joinChar '\n' (headerLine r0 :: (r0 :: rest).map rowLine)))
    (headerLine r0) ((r0 :: rest).map rowLine) hlines
  rw [happ]
  have hheader : splitOnChar ',' (headerLine r0) =
      r0.map (fun kv => kv.1.data) := by
    rw [headerLine]
    apply splitOnChar_joinChar
    · simp [hne]
    · intro x hx
      obtain ⟨kv, hkv, rfl⟩ := List.mem_map.mp hx
      exact (hkeys kv hkv).1
  have hkeymk : (splitOnChar ',' (headerLine r0)).map (fun cs => String.mk cs) =
      r0.map Prod.fst := by
    rw [hheader, List.map_map]
    exact List.map_congr_left (fun kv _ => rfl)
  rw [hkeymk]
  exact parseRows_map_rowLine (r0.map Prod.fst) (r0 :: rest)
    (by simp [hne]) huniform hvals

/-- A sample record with a string, an integer and an absent field. -/
def sampleRecordA : CsvRecord :=
  [("id", .str "R1"), ("start_time", .int 17), ("used_by", .absent)]

/-- A second sample record of the same shape, with a negative integer. -/
def sampleRecordB : CsvRecord :=
  [("id", .str "R2"), ("start_time", .int (-5)), ("used_by", .str "bob")]

theorem csv_roundtrip_witness :
    parseCsv (stringifyCsv [sampleRecordA, sampleRecordB]) =
      some ([sampleRecordA, sampleRecordB].map normRecord) ∧
    recordsEquiv ([sampleRecordA, sampleRecordB].map normRecord)
      [sampleRecordA, sampleRecordB] = true :=
  csv_roundtrip sampleRecordA [sampleRecordB] (by decide) (by decide)
    (by decide) (by decide)
